import Mathlib

/-!
Verification of `pytorch_points` (network/operations.py and
network/geo_operations.py) against its specification.

Shallow embedding conventions:
* tensors are total functions out of `Fin` index types; a tensor axis that
  every operation treats elementwise (and independently per element) is kept
  as an explicit `Fin` argument;
* float arithmetic is idealised: exact rationals `ℚ` where the code only
  adds, multiplies and compares, and reals `ℝ` where the code takes square
  roots or trigonometric functions;
* in-place accumulation (`scatter_add_`) is embedded as a left fold over the
  update sequence, mirroring the sequential in-place kernel;
* `torch.where(mask, a, b)` becomes an `if mask then a else b` on values,
  and the `x - (x.detach() - c)` clamping trick is embedded by its forward
  value (`detach` is the identity on values);
* fallible code returns `Except String`.
-/

namespace PytorchPoints

/-! ## Gather / ScatterAdd (operations.py)

`ScatterAdd` scatters along dimension `dim`; all axes before it are
elementwise-independent for the accumulation, so they are flattened into a
single row axis `R` and the scatter axis is the last one. -/

/-- Model of `torch.gather(input, dim, index)` along the last axis of a
two-axis tensor: `out[r][m] = input[r][index[r][m]]`. -/
def torchGather {R M N : ℕ} (input : Fin R → Fin N → ℚ)
    (index : Fin R → Fin M → Fin N) : Fin R → Fin M → ℚ :=
  fun r m => input r (index r m)

/-- One in-place update of `torch.Tensor.scatter_add_` on one row: add `v`
at position `j`. -/
def scatterStep {N : ℕ} (row : Fin N → ℚ) (j : Fin N) (v : ℚ) : Fin N → ℚ :=
  fun n => if n = j then row n + v else row n

/-- Model of `out.scatter_add_(dim, idx, src)` on one row (rows are
independent when scattering along the last axis): source entries are
accumulated sequentially into the row, as the in-place kernel does. -/
def scatterRow {M N : ℕ} (init : Fin N → ℚ) (idx : Fin M → Fin N)
    (src : Fin M → ℚ) : Fin N → ℚ :=
  (List.finRange M).foldl (fun row m => scatterStep row (idx m) (src m)) init

/-- `ScatterAdd.forward` (operations.py): `out = torch.full(out_size, fill)`
then `out.scatter_add_(dim, idx, src)`. -/
def ScatterAdd_forward {R M N : ℕ} (src : Fin R → Fin M → ℚ)
    (idx : Fin R → Fin M → Fin N) (fill : ℚ) : Fin R → Fin N → ℚ :=
  fun r => scatterRow (fun _ => fill) (idx r) (src r)

/-- `ScatterAdd.backward` (operations.py): `grad = torch.gather(ograd,
ctx.dim, idx)`; the second component is the gradient returned for `idx`,
which is `None` (the remaining `None`s for `dim`, `out_size`, `fill` are
omitted). -/
def ScatterAdd_backward {R M N : ℕ} (ograd : Fin R → Fin N → ℚ)
    (idx : Fin R → Fin M → Fin N) : (Fin R → Fin M → ℚ) × Option Unit :=
  (torchGather ograd idx, none)

/-- `idx.max().item()` for the `out_size=None` branch of `scatter_add`
(operations.py): the largest index anywhere in the (nonempty) tensor. -/
def idxMax {R M : ℕ} (idx : Fin (R + 1) → Fin (M + 1) → ℕ) : ℕ :=
  Finset.univ.sup fun p : Fin (R + 1) × Fin (M + 1) => idx p.1 p.2

/-- `scatter_add(src, idx, dim, out_size=None, fill)` (operations.py): the
output size along the scatter axis is `idx.max().item() + 1` and `src`'s
size on every other axis; then `ScatterAdd.apply`. -/
def scatter_add_defaultSize {R M : ℕ} (src : Fin (R + 1) → Fin (M + 1) → ℚ)
    (idx : Fin (R + 1) → Fin (M + 1) → ℕ) (fill : ℚ) :
    Fin (R + 1) → Fin (idxMax idx + 1) → ℚ :=
  ScatterAdd_forward src
    (fun r m => ⟨idx r m, Nat.lt_succ_of_le
      (Finset.le_sup (f := fun p : Fin (R + 1) × Fin (M + 1) => idx p.1 p.2)
        (Finset.mem_univ (r, m)))⟩) fill

/-- Modelled from the spec: the native kernel `sampling.gather_forward`
(compiled extension of this repository, not under src/) — "gather
forward/backward: (B,C,N,npoint, features, idx) -> output" (section 6),
selecting for each batch and output position the feature column at the given
index (section 4.1). -/
def gather_forward {B C N M : ℕ} (features : Fin B → Fin C → Fin N → ℚ)
    (idx : Fin B → Fin M → Fin N) : Fin B → Fin C → Fin M → ℚ :=
  fun b c m => features b c (idx b m)

/-- Modelled from the spec: the native kernel `sampling.gather_backward`
(compiled extension, not under src/) — "gradient w.r.t. features is a
scatter-add of the incoming M-length gradient back to the N positions named
by idx (accumulating when an index repeats)" (section 4.1).
`GatherFunction.backward` starts from `torch.zeros(B, C, N)` and the kernel
accumulates into it. -/
def gather_backward {B C N M : ℕ} (grad_out : Fin B → Fin C → Fin M → ℚ)
    (idx : Fin B → Fin M → Fin N) : Fin B → Fin C → Fin N → ℚ :=
  fun b c => scatterRow (fun _ => 0) (idx b) (grad_out b c)

/-- `GatherFunction.backward` (operations.py): the scatter-add gradient for
`features`, and `None` for `idx`. -/
def GatherFunction_backward {B C N M : ℕ}
    (grad_out : Fin B → Fin C → Fin M → ℚ) (idx : Fin B → Fin M → Fin N) :
    (Fin B → Fin C → Fin N → ℚ) × Option Unit :=
  (gather_backward grad_out idx, none)

/-! ## NeighborSearch: group_knn (operations.py)

`group_knn` with `NCHW=True` first transposes its inputs to channel-last
layout; the embedding works on the channel-last tensors. Sizes are kept
positive (`+ 1`) because the `unique` branch takes `torch.max` over the
whole distance matrix, which is an error on an empty tensor. -/

/-- `__batch_distance_matrix_general` (operations.py): squared pairwise
distances computed as `|a|^2 - 2 a.b + |b|^2`. The float scalars are
idealised as an arbitrary linear ordered commutative ring `R` (the search
only adds, multiplies and compares); `ℚ` and `ℝ` are instances. -/
def batch_distance_matrix_general {R : Type} [LinearOrderedCommRing R] {B N M D : ℕ}
    (A : Fin B → Fin N → Fin D → R) (Bt : Fin B → Fin M → Fin D → R) :
    Fin B → Fin N → Fin M → R :=
  fun b i j => (∑ c, A b i c * A b i c) - 2 * (∑ c, A b i c * Bt b j c)
    + ∑ c, Bt b j c * Bt b j c

/-- Order used to model `torch.topk(-D, k, dim=-1, sorted=True)`: indices
ranked by increasing distance. Among exactly tied distances torch leaves
the order implementation-defined; the spec stipulates original index order
(a stable partial sort), which this model adopts. -/
def distLE {R : Type} [LinearOrder R] {N : ℕ} (val : Fin N → R) (i j : Fin N) : Prop :=
  val i < val j ∨ (val i = val j ∧ i ≤ j)

instance {R : Type} [LinearOrder R] {N : ℕ} (val : Fin N → R) :
    DecidableRel (distLE val) := fun _ _ =>
  inferInstanceAs (Decidable (_ ∨ _))

instance {R : Type} [LinearOrder R] {N : ℕ} (val : Fin N → R) :
    IsTotal (Fin N) (distLE val) where
  total i j := by
    rcases lt_trichotomy (val i) (val j) with h | h | h
    · exact Or.inl (Or.inl h)
    · rcases le_total i j with hij | hij
      · exact Or.inl (Or.inr ⟨h, hij⟩)
      · exact Or.inr (Or.inr ⟨h.symm, hij⟩)
    · exact Or.inr (Or.inl h)

instance {R : Type} [LinearOrder R] {N : ℕ} (val : Fin N → R) :
    IsTrans (Fin N) (distLE val) where
  trans i j l hij hjl := by
    rcases hij with h1 | ⟨e1, le1⟩
    · rcases hjl with h2 | ⟨e2, _⟩
      · exact Or.inl (h1.trans h2)
      · exact Or.inl (e2 ▸ h1)
    · rcases hjl with h2 | ⟨e2, le2⟩
      · exact Or.inl (e1 ▸ h2)
      · exact Or.inr ⟨e1.trans e2, le1.trans le2⟩

instance {R : Type} [LinearOrder R] {N : ℕ} (val : Fin N → R) :
    IsAntisymm (Fin N) (distLE val) where
  antisymm i j hij hji := by
    rcases hij with h1 | ⟨e1, le1⟩
    · rcases hji with h2 | ⟨e2, _⟩
      · exact absurd (h1.trans h2) (lt_irrefl _)
      · exact absurd h1 (e2 ▸ lt_irrefl _)
    · rcases hji with h2 | ⟨_, le2⟩
      · exact absurd h2 (e1 ▸ lt_irrefl _)
      · exact le_antisymm le1 le2

/-- Model of `torch.topk(-D, k, dim=-1, sorted=True)` applied to one row of
the negated distance matrix: the `k` indices of smallest distance, in
ascending distance order. -/
def topkIdx {R : Type} [LinearOrder R] {N : ℕ} (val : Fin N → R) (k : ℕ) : List (Fin N) :=
  ((List.finRange N).mergeSort fun i j => decide (distLE val i j)).take k

/-- An index of `points[b]` is penalised by the `unique` branch of
`group_knn` iff it is not the first occurrence of its coordinate row:
`np.unique(points[b], return_index=True, axis=0)` reports the first
occurrence of each distinct row and `group_knn` marks all the others. -/
def isDuplicate {R : Type} [LinearOrder R] {B N D : ℕ}
    (points : Fin B → Fin N → Fin D → R) (b : Fin B) (j : Fin N) : Prop :=
  ∃ j' : Fin N, j' < j ∧ ∀ d, points b j' d = points b j d

instance {R : Type} [LinearOrder R] {B N D : ℕ}
    (points : Fin B → Fin N → Fin D → R) (b : Fin B) (j : Fin N) :
    Decidable (isDuplicate points b j) :=
  inferInstanceAs (Decidable (∃ _, _))

/-- `torch.max(D)`: the largest entry of the whole (nonempty) tensor. -/
def tensorMax {R : Type} [LinearOrder R] {B M N : ℕ}
    (Dm : Fin (B + 1) → Fin (M + 1) → Fin (N + 1) → R) : R :=
  Finset.univ.sup' Finset.univ_nonempty
    fun p : Fin (B + 1) × Fin (M + 1) × Fin (N + 1) => Dm p.1 p.2.1 p.2.2

/-- The distance matrix that `group_knn` ranks: the raw squared distances
and, when `unique` is set, `torch.max(D)` times the duplicate indicator
added on top (`D += torch.max(D) * indices_duplicated`). -/
def knnD {R : Type} [LinearOrderedCommRing R] {B M N D : ℕ} (unique : Bool)
    (query : Fin (B + 1) → Fin (M + 1) → Fin D → R)
    (points : Fin (B + 1) → Fin (N + 1) → Fin D → R) :
    Fin (B + 1) → Fin (M + 1) → Fin (N + 1) → R :=
  let D0 := batch_distance_matrix_general query points
  if unique then
    fun b m n => D0 b m n + tensorMax D0 * (if isDuplicate points b n then 1 else 0)
  else D0

/-- `group_knn` (operations.py) on channel-last inputs: neighbor coordinates
(`torch.gather` of the points at the selected indices), neighbor indices,
and the selected entries of the (possibly penalised) distance matrix
(`topk` returns `-(-D)` there), each row listing the top-k ascending. -/
def group_knn {R : Type} [LinearOrderedCommRing R] {B M N D : ℕ} (k : ℕ) (unique : Bool)
    (query : Fin (B + 1) → Fin (M + 1) → Fin D → R)
    (points : Fin (B + 1) → Fin (N + 1) → Fin D → R) :
    (Fin (B + 1) → Fin (M + 1) → List (Fin D → R))
      × (Fin (B + 1) → Fin (M + 1) → List (Fin (N + 1)))
      × (Fin (B + 1) → Fin (M + 1) → List R) :=
  let Dp := knnD unique query points
  let indices : Fin (B + 1) → Fin (M + 1) → List (Fin (N + 1)) :=
    fun b m => topkIdx (Dp b m) k
  (fun b m => (indices b m).map fun n => points b n,
   indices,
   fun b m => (indices b m).map fun n => Dp b m n)

/-- Brute-force reference for the KNN claim, following the spec's words:
sort all candidate indices of the row by (distance, then original index)
and keep the first `k`. -/
def bruteForceKnn {R : Type} [LinearOrder R] {N : ℕ} (val : Fin N → R) (k : ℕ) : List (Fin N) :=
  (List.insertionSort (distLE val) (List.finRange N)).take k

/-- Concrete query for the C3 witness: a single query point at the origin. -/
def knnExampleQuery : Fin 1 → Fin 1 → Fin 1 → ℤ := fun _ _ _ => 0

/-- Concrete point set for the C3 witness: two 1-D points, 3 and 1. -/
def knnExamplePoints : Fin 1 → Fin 2 → Fin 1 → ℤ := fun _ n _ =>
  if n = 0 then 3 else 1

/-- Concrete query for the C5 witness. -/
def uniqExampleQuery : Fin 1 → Fin 1 → Fin 3 → ℤ := fun _ _ _ => 0

/-- Concrete point set for the C5 witness: rows 0 and 1 coincide, row 2 is
distinct. -/
def uniqExamplePoints : Fin 1 → Fin 3 → Fin 3 → ℤ := fun _ n _ =>
  if n = 2 then 1 else 0

/-- Concrete query for the C5 counterexample. -/
def dupExampleQuery : Fin 1 → Fin 1 → Fin 3 → ℤ := fun _ _ _ => 1

/-- Concrete point set for the C5 counterexample: both rows are the same
coordinate tuple, so any 2-neighborhood must repeat it. -/
def dupExamplePoints : Fin 1 → Fin 2 → Fin 3 → ℤ := fun _ _ _ => 0

/-! ## BatchedSVD (operations.py) -/

/-- Truthiness of the `RuntimeError` class object: a Python class is always
truthy, so the statement `assert(RuntimeError), msg` in
`BatchSVDFunction.forward` can never fire. -/
def pythonTruthyRuntimeError : Bool := true

/-- A Python `assert cond, msg` statement: raises `AssertionError(msg)` when
`cond` is falsy. -/
def pythonAssert (cond : Bool) (msg : String) : Except String Unit :=
  if cond then Except.ok () else Except.error msg

/-- `x.cuda()`: moves a tensor to the accelerator, raising a `RuntimeError`
when no CUDA device is available. -/
def tensorToCuda {α : Type} (cudaAvailable : Bool) (x : α) : Except String α :=
  if cudaAvailable then Except.ok x else Except.error "CUDA is not available"

/-- `BatchSVDFunction.forward` (operations.py): when
`torch.cuda.is_available()` is false it executes `assert(RuntimeError),
"BatchSVDFunction only runs on gpu"`; it then moves `x` to the accelerator
with `x.cuda()` and calls the native kernel `linalg.batch_svd_forward`
(abstracted here as `kernel`, applied only after the move succeeds). -/
def BatchSVDFunction_forward {α β : Type} (cudaAvailable : Bool)
    (kernel : α → β) (x : α) : Except String β := do
  if cudaAvailable = false then
    pythonAssert pythonTruthyRuntimeError "BatchSVDFunction only runs on gpu"
  let xc ← tensorToCuda cudaAvailable x
  pure (kernel xc)

/-- `batch_svd` (operations.py): asserts a rank-3 input (part of the tensor
type in this embedding) and delegates to `BatchSVDFunction`. -/
def batch_svd {α β : Type} (cudaAvailable : Bool) (kernel : α → β) (x : α) :
    Except String β :=
  BatchSVDFunction_forward cudaAvailable kernel x

/-! ## normalize_point_batch (geo_operations.py)

Real-valued geometry: the code takes square roots, so values live in `ℝ`
and the definitions are noncomputable. The point axis is kept nonempty
(`torch.max` over an empty axis is an error). -/

/-- Centroid of `normalize_point_batch` on a channel-last cloud:
`torch.mean` over the point axis. -/
noncomputable def npbCentroid {B N D : ℕ}
    (pc : Fin B → Fin (N + 1) → Fin D → ℝ) : Fin B → Fin D → ℝ :=
  fun b d => (∑ i, pc b i d) / (N + 1)

/-- The centered cloud `pc - centroid`. -/
noncomputable def npbCentered {B N D : ℕ}
    (pc : Fin B → Fin (N + 1) → Fin D → ℝ) : Fin B → Fin (N + 1) → Fin D → ℝ :=
  fun b i d => pc b i d - npbCentroid pc b d

/-- Per-point distance to the centroid:
`torch.sqrt(torch.sum(pc ** 2, dim=dim_axis))` after centering. -/
noncomputable def npbDist {B N D : ℕ}
    (pc : Fin B → Fin (N + 1) → Fin D → ℝ) : Fin B → Fin (N + 1) → ℝ :=
  fun b i => Real.sqrt (∑ d, npbCentered pc b i d ^ 2)

/-- `furthest_distance`: `torch.max` of the distances over the point axis. -/
noncomputable def npbFurthest {B N D : ℕ}
    (pc : Fin B → Fin (N + 1) → Fin D → ℝ) : Fin B → ℝ :=
  fun b => Finset.univ.sup' Finset.univ_nonempty (npbDist pc b)

/-- `normalize_point_batch` (geo_operations.py) on a channel-last cloud
(`NCHW=False`): the normalised cloud, the centroid and the furthest
distance (the keepdim-1 axes of the returned centroid and scale are
dropped). -/
noncomputable def normalize_point_batch {B N D : ℕ}
    (pc : Fin B → Fin (N + 1) → Fin D → ℝ) :
    (Fin B → Fin (N + 1) → Fin D → ℝ) × (Fin B → Fin D → ℝ) × (Fin B → ℝ) :=
  (fun b i d => npbCentered pc b i d / npbFurthest pc b,
   npbCentroid pc, npbFurthest pc)

/-- `normalize_point_batch` with `NCHW=True`: the identical computation
with the channel axis second and the point axis last (the code only swaps
`point_axis` and `dim_axis`). -/
noncomputable def normalize_point_batch_NCHW {B N D : ℕ}
    (pc : Fin B → Fin D → Fin (N + 1) → ℝ) :
    (Fin B → Fin D → Fin (N + 1) → ℝ) × (Fin B → Fin D → ℝ) × (Fin B → ℝ) :=
  let t : Fin B → Fin (N + 1) → Fin D → ℝ := fun b i d => pc b d i
  (fun b d i => (normalize_point_batch t).1 b i d,
   (normalize_point_batch t).2.1, (normalize_point_batch t).2.2)

/-! ## Cotangent Laplacian (geo_operations.py) -/

/-- Euclidean norm of a 3-vector along the last axis:
`torch.sqrt(((.)**2).sum(-1))` / `torch.norm(., dim=-1, p=2)`. -/
noncomputable def norm3 (v : Fin 3 → ℝ) : ℝ := Real.sqrt (∑ d, v d ^ 2)

/-- The gathered face corner of `cotangent` (geo_operations.py): vertex
coordinates of corner `k` of face `f` in batch `b` (`torch.gather(V, 1,
indices_repeat[...])`). -/
def faceVertex {B N F : ℕ} (V : Fin B → Fin N → Fin 3 → ℝ)
    (Fc : Fin B → Fin F → Fin 3 → Fin N) (b : Fin B) (f : Fin F)
    (k : Fin 3) : Fin 3 → ℝ :=
  V b (Fc b f k)

/-- Edge lengths `l1, l2, l3` of `cotangent`: entry 0 is the length of edge
2-3 (`torch.sqrt(((v2 - v3)**2).sum(2))`), entry 1 of edge 3-1, entry 2 of
edge 1-2. -/
noncomputable def cotEdgeLen {B N F : ℕ} (V : Fin B → Fin N → Fin 3 → ℝ)
    (Fc : Fin B → Fin F → Fin 3 → Fin N) (b : Fin B) (f : Fin F) :
    Fin 3 → ℝ :=
  ![norm3 (fun d => faceVertex V Fc b f 1 d - faceVertex V Fc b f 2 d),
    norm3 (fun d => faceVertex V Fc b f 2 d - faceVertex V Fc b f 0 d),
    norm3 (fun d => faceVertex V Fc b f 0 d - faceVertex V Fc b f 1 d)]

/-- Semiperimeter `sp = (l1 + l2 + l3) * 0.5` of `cotangent`. -/
noncomputable def cotSp {B N F : ℕ} (V : Fin B → Fin N → Fin 3 → ℝ)
    (Fc : Fin B → Fin F → Fin 3 → Fin N) (b : Fin B) (f : Fin F) : ℝ :=
  (cotEdgeLen V Fc b f 0 + cotEdgeLen V Fc b f 1 + cotEdgeLen V Fc b f 2) * 0.5

/-- `A = 2 * sqrt(sp * (sp - l1) * (sp - l2) * (sp - l3))` of `cotangent` —
note the factor 2: this is twice Heron's area of the face. -/
noncomputable def cotA {B N F : ℕ} (V : Fin B → Fin N → Fin 3 → ℝ)
    (Fc : Fin B → Fin F → Fin 3 → Fin N) (b : Fin B) (f : Fin F) : ℝ :=
  2 * Real.sqrt (cotSp V Fc b f * (cotSp V Fc b f - cotEdgeLen V Fc b f 0)
    * (cotSp V Fc b f - cotEdgeLen V Fc b f 1)
    * (cotSp V Fc b f - cotEdgeLen V Fc b f 2))

/-- Law-of-cosines numerators of `cotangent`:
`cot23 = l2^2 + l3^2 - l1^2`, `cot31 = l1^2 + l3^2 - l2^2`,
`cot12 = l1^2 + l2^2 - l3^2`. -/
noncomputable def cotNum {B N F : ℕ} (V : Fin B → Fin N → Fin 3 → ℝ)
    (Fc : Fin B → Fin F → Fin 3 → Fin N) (b : Fin B) (f : Fin F) :
    Fin 3 → ℝ :=
  ![cotEdgeLen V Fc b f 1 ^ 2 + cotEdgeLen V Fc b f 2 ^ 2
      - cotEdgeLen V Fc b f 0 ^ 2,
    cotEdgeLen V Fc b f 0 ^ 2 + cotEdgeLen V Fc b f 2 ^ 2
      - cotEdgeLen V Fc b f 1 ^ 2,
    cotEdgeLen V Fc b f 0 ^ 2 + cotEdgeLen V Fc b f 1 ^ 2
      - cotEdgeLen V Fc b f 2 ^ 2]

/-- `cotangent(V, F)` (geo_operations.py): the per-face, per-edge values
`C = stack([cot23, cot31, cot12], 2) / A.unsqueeze(2) / 4`, columns
corresponding to edges 23, 31, 12. -/
noncomputable def cotangent {B N F : ℕ} (V : Fin B → Fin N → Fin 3 → ℝ)
    (Fc : Fin B → Fin F → Fin 3 → Fin N) : Fin B → Fin F → Fin 3 → ℝ :=
  fun b f e => cotNum V Fc b f e / cotA V Fc b f / 4

/-- Heron's-formula area of a face, as the C7 claim's words prescribe:
`sqrt(sp * (sp - l1) * (sp - l2) * (sp - l3))`. -/
noncomputable def heronArea {B N F : ℕ} (V : Fin B → Fin N → Fin 3 → ℝ)
    (Fc : Fin B → Fin F → Fin 3 → Fin N) (b : Fin B) (f : Fin F) : ℝ :=
  Real.sqrt (cotSp V Fc b f * (cotSp V Fc b f - cotEdgeLen V Fc b f 0)
    * (cotSp V Fc b f - cotEdgeLen V Fc b f 1)
    * (cotSp V Fc b f - cotEdgeLen V Fc b f 2))

/-- The reference value the C7 claim states: the cotangent of the angle
opposite each edge, obtained from Heron's-formula area and the law of
cosines — `(l2^2 + l3^2 - l1^2) / (4 * Area)` for edge 2-3, and likewise
for edges 3-1 and 1-2. -/
noncomputable def cotangentClaimed {B N F : ℕ} (V : Fin B → Fin N → Fin 3 → ℝ)
    (Fc : Fin B → Fin F → Fin 3 → Fin N) : Fin B → Fin F → Fin 3 → ℝ :=
  fun b f e => cotNum V Fc b f e / (4 * heronArea V Fc b f)

/-- Batch-stacked vertex index (`F_np + offset` then `reshape(-1, 3)` in
`computeLaplacian`): vertex `i` of batch `b` occupies row `b * N + i` of
the `(B*N, B*N)` operator. -/
def encodeBN {B N : ℕ} (b : Fin B) (i : Fin N) : Fin (B * N) :=
  ⟨b.val * N + i.val, by
    have h1 : b.val + 1 ≤ B := b.isLt
    calc b.val * N + i.val < b.val * N + N := Nat.add_lt_add_left i.isLt _
      _ = (b.val + 1) * N := (Nat.succ_mul _ _).symm
      _ ≤ B * N := Nat.mul_le_mul_right N h1⟩

/-- The face-corner gather pattern `[1, 2, 0]` (the "next" corner),
used by `computeLaplacian`'s rows and by `mean_value_coordinates_3D`. -/
def rotNext : Fin 3 → Fin 3 := ![1, 2, 0]

/-- The face-corner gather pattern `[2, 0, 1]` (the "previous" corner),
used by `computeLaplacian`'s columns and by `mean_value_coordinates_3D`. -/
def rotPrev : Fin 3 → Fin 3 := ![2, 0, 1]

/-- The COO accumulation `sparse.csr_matrix((batchC, (rows, cols)))` of
`CotLaplacian.computeLaplacian`: `rows = batchF[:, [1, 2, 0]]`,
`cols = batchF[:, [2, 0, 1]]`, and entry `(r, c)` sums the cotangent values
of every (batch, face, edge) triple whose indices hit `(r, c)`. -/
noncomputable def cotLcoo {B N F : ℕ} (V : Fin B → Fin N → Fin 3 → ℝ)
    (Fc : Fin B → Fin F → Fin 3 → Fin N) :
    Fin (B * N) → Fin (B * N) → ℝ :=
  fun r c => ∑ b, ∑ f, ∑ e,
    if encodeBN b (Fc b f (rotNext e)) = r ∧ encodeBN b (Fc b f (rotPrev e)) = c
    then cotangent V Fc b f e else 0

/-- `L = L + L.T` of `computeLaplacian`. -/
noncomputable def cotLsym {B N F : ℕ} (V : Fin B → Fin N → Fin 3 → ℝ)
    (Fc : Fin B → Fin F → Fin 3 → Fin N) :
    Fin (B * N) → Fin (B * N) → ℝ :=
  fun r c => cotLcoo V Fc r c + cotLcoo V Fc c r

/-- The row sums `np.sum(L, 1)` that `computeLaplacian` turns into the
diagonal matrix `M`. -/
noncomputable def cotRowSum {B N F : ℕ} (V : Fin B → Fin N → Fin 3 → ℝ)
    (Fc : Fin B → Fin F → Fin 3 → Fin N) : Fin (B * N) → ℝ :=
  fun r => ∑ c, cotLsym V Fc r c

/-- `CotLaplacian.computeLaplacian` (geo_operations.py): the assembled
sparse operator `L = (L + L.T) - diags(np.sum(L + L.T, 1))`. -/
noncomputable def computeLaplacian {B N F : ℕ} (V : Fin B → Fin N → Fin 3 → ℝ)
    (Fc : Fin B → Fin F → Fin 3 → Fin N) :
    Fin (B * N) → Fin (B * N) → ℝ :=
  fun r c => cotLsym V Fc r c - (if r = c then cotRowSum V Fc r else 0)

/-- `_CotLaplacianBatchLx.forward` (geo_operations.py): the sparse product
`L.dot(batchV)` on the batch-stacked vertex matrix. -/
noncomputable def cotLx {BN : ℕ} (L : Fin BN → Fin BN → ℝ)
    (Vflat : Fin BN → Fin 3 → ℝ) : Fin BN → Fin 3 → ℝ :=
  fun r d => ∑ c, L r c * Vflat c d

/-- Concrete vertices for the C7 counterexample: the right isoceles
triangle (0,0,0), (1,0,0), (0,1,0), whose angle at the vertex opposite edge
3-1 is 45 degrees (cotangent 1). -/
noncomputable def cexV : Fin 1 → Fin 3 → Fin 3 → ℝ :=
  fun _ => ![![0, 0, 0], ![1, 0, 0], ![0, 1, 0]]

/-- Concrete single face for the C7 counterexample. -/
def cexF : Fin 1 → Fin 1 → Fin 3 → Fin 3 := fun _ _ => ![0, 1, 2]

/-! ## Mean value coordinates (geo_operations.py)

`mean_value_coordinates_3D(query, vertices, faces)` treats the batch axis
`B` and the query axis `P` elementwise throughout (every reduction runs
over the face-corner, face or vertex axes, and the scatter and the final
normalisation act on one (batch, query) row at a time), so the embedding
fixes one batch element and one query point `x`. The scatter step calls
this repository's `scatter_add` with `out_size=None`, so its raw output has
`faces.max() + 1` columns; the `torch.where` against the `(B, P, N)`
coincidence mask that follows requires that to equal `N` (a cage whose last
vertex appears in some face), and the embedding is stated over the full
vertex axis `Fin N`. `PI` is the module constant `3.1415927`, not π.
The two `x - (x.detach() - c)` clamp lines are embedded by their forward
values. -/

/-- The module constant `PI = 3.1415927` (geo_operations.py). -/
noncomputable def codePI : ℝ := 3.1415927

/-- `normalize(v, dim=-1)` (operations.py), i.e.
`torch.nn.functional.normalize(v, p=2, dim=-1, eps=1e-12)`:
`v / max(norm(v), 1e-12)`. -/
noncomputable def torchNormalize3 (v : Fin 3 → ℝ) : Fin 3 → ℝ :=
  fun d => v d / max (norm3 v) 1e-12

section MeanValue

open scoped Classical

variable {N F : ℕ} (vertices : Fin N → Fin 3 → ℝ)
variable (faces : Fin F → Fin 3 → Fin N) (x : Fin 3 → ℝ)

/-- `uj = vertices - query`: the vector from the query to vertex `j`. -/
noncomputable def mvcU (j : Fin N) : Fin 3 → ℝ := fun d => vertices j d - x d

/-- `dj = torch.norm(uj, dim=-1, p=2)`: distance from the query to vertex
`j`. -/
noncomputable def mvcD (j : Fin N) : ℝ := norm3 (mvcU vertices x j)

/-- The normalised `uj` (`uj = normalize(uj, dim=-1)`). -/
noncomputable def mvcUnit (j : Fin N) : Fin 3 → ℝ :=
  torchNormalize3 (mvcU vertices x j)

/-- `ui`: the gathered triangle of unit vectors — corner `k` of face `f`. -/
noncomputable def mvcUi (f : Fin F) (k : Fin 3) : Fin 3 → ℝ :=
  mvcUnit vertices x (faces f k)

/-- `li = ‖u_{i+1} - u_{i-1}‖` (the `[1,2,0]` minus `[2,0,1]` gather). -/
noncomputable def mvcLiRaw (f : Fin F) (k : Fin 3) : ℝ :=
  norm3 (fun d => mvcUi vertices faces x f (rotNext k) d
    - mvcUi vertices faces x f (rotPrev k) d)

/-- First clamp `li = where(li >= 2, li - (li.detach() - (2 - eps)), li)`
with `eps = 2e-5` (forward value). -/
noncomputable def mvcLi1 (f : Fin F) (k : Fin 3) : ℝ :=
  if mvcLiRaw vertices faces x f k ≥ 2 then
    mvcLiRaw vertices faces x f k - (mvcLiRaw vertices faces x f k - (2 - 2e-5))
  else mvcLiRaw vertices faces x f k

/-- Second clamp `li = where(li <= -2, li - (li.detach() + (2 - eps)), li)`. -/
noncomputable def mvcLi (f : Fin F) (k : Fin 3) : ℝ :=
  if mvcLi1 vertices faces x f k ≤ -2 then
    mvcLi1 vertices faces x f k - (mvcLi1 vertices faces x f k + (2 - 2e-5))
  else mvcLi1 vertices faces x f k

/-- `θi = 2 * asin(li / 2)`. -/
noncomputable def mvcTheta (f : Fin F) (k : Fin 3) : ℝ :=
  2 * Real.arcsin (mvcLi vertices faces x f k / 2)

/-- `h = sum(θi, dim=-1) / 2`. -/
noncomputable def mvcH (f : Fin F) : ℝ :=
  (∑ k, mvcTheta vertices faces x f k) / 2

/-- `ci = 2 sin(h) sin(h - θi) / (sin(θ_{i+1}) sin(θ_{i-1})) - 1`. -/
noncomputable def mvcCiRaw (f : Fin F) (k : Fin 3) : ℝ :=
  2 * Real.sin (mvcH vertices faces x f)
      * Real.sin (mvcH vertices faces x f - mvcTheta vertices faces x f k)
    / (Real.sin (mvcTheta vertices faces x f (rotNext k))
      * Real.sin (mvcTheta vertices faces x f (rotPrev k))) - 1

/-- First clamp of `ci` at `1 - eps`, `eps = 1e-5` (forward value). -/
noncomputable def mvcCi1 (f : Fin F) (k : Fin 3) : ℝ :=
  if mvcCiRaw vertices faces x f k ≥ 1 then
    mvcCiRaw vertices faces x f k - (mvcCiRaw vertices faces x f k - (1 - 1e-5))
  else mvcCiRaw vertices faces x f k

/-- Second clamp of `ci` at `-(1 - eps)`. -/
noncomputable def mvcCi (f : Fin F) (k : Fin 3) : ℝ :=
  if mvcCi1 vertices faces x f k ≤ -1 then
    mvcCi1 vertices faces x f k - (mvcCi1 vertices faces x f k + (1 - 1e-5))
  else mvcCi1 vertices faces x f k

/-- `si = sign(det(ui)) * sqrt(1 - ci^2)` (`detach` is the identity on
values). -/
noncomputable def mvcSi (f : Fin F) (k : Fin 3) : ℝ :=
  Real.sign (Matrix.det (Matrix.of fun r c => mvcUi vertices faces x f r c))
    * Real.sqrt (1 - mvcCi vertices faces x f k ^ 2)

/-- `di`: the distances `dj` gathered at the face corners. -/
noncomputable def mvcDi (f : Fin F) (k : Fin 3) : ℝ :=
  mvcD vertices x (faces f k)

/-- `wi = (θi - c_{i+1} θ_{i-1} - c_{i-1} θ_{i+1}) /
(di sin(θ_{i+1}) s_{i-1})`. -/
noncomputable def mvcWiRaw (f : Fin F) (k : Fin 3) : ℝ :=
  (mvcTheta vertices faces x f k
      - mvcCi vertices faces x f (rotNext k)
        * mvcTheta vertices faces x f (rotPrev k)
      - mvcCi vertices faces x f (rotPrev k)
        * mvcTheta vertices faces x f (rotNext k))
    / (mvcDi vertices faces x f k
      * Real.sin (mvcTheta vertices faces x f (rotNext k))
      * mvcSi vertices faces x f (rotPrev k))

/-- `wi = where(any(|si| <= 1e-5, dim=-1, keepdim=True), 0, wi)`: a face
coplanar with the query (query outside the face) contributes zero. -/
noncomputable def mvcWiSiMasked (f : Fin F) (k : Fin 3) : ℝ :=
  if ∃ k' : Fin 3, |mvcSi vertices faces x f k'| ≤ 1e-5 then 0
  else mvcWiRaw vertices faces x f k

/-- `inside_triangle = (PI - h).squeeze(-1) < 1e-4`. -/
def mvcInsideTriangle (f : Fin F) : Prop :=
  codePI - mvcH vertices faces x f < 1e-4

/-- `wi = where(any(inside_triangle, dim=-1, keepdim=True), 0, wi)`: if the
query lies on some face, every face of this query row is zeroed first. -/
noncomputable def mvcWiInsideZeroed (f : Fin F) (k : Fin 3) : ℝ :=
  if ∃ f' : Fin F, mvcInsideTriangle vertices faces x f' then 0
  else mvcWiSiMasked vertices faces x f k

/-- `wi = where(inside_triangle, sin(θi) d_{i-1} d_{i+1}, wi)`: a face
containing the query supplies the standard triangle weights. -/
noncomputable def mvcWi (f : Fin F) (k : Fin 3) : ℝ :=
  if mvcInsideTriangle vertices faces x f then
    Real.sin (mvcTheta vertices faces x f k)
      * mvcDi vertices faces x f (rotPrev k)
      * mvcDi vertices faces x f (rotNext k)
  else mvcWiInsideZeroed vertices faces x f k

/-- The scatter `wj = scatter_add(wi.reshape(B,P,-1),
faces...reshape(B,P,-1), 2)`: entry `n` accumulates the `wi` of every face
corner indexing vertex `n` (fill 0; see `ScatterAdd_forward_eq_sum` for the
fold-to-sum characterisation of the scatter kernel). -/
noncomputable def mvcWjScatter (n : Fin N) : ℝ :=
  ∑ f, ∑ k, if faces f k = n then mvcWi vertices faces x f k else 0

/-- `close_to_point = dj.squeeze(-1) < 1e-8`. -/
def mvcClose (n : Fin N) : Prop := mvcD vertices x n < 1e-8

/-- `wj = where(any(close_to_point, dim=-1, keepdim=True), 0, wj)`. -/
noncomputable def mvcWjZeroed (n : Fin N) : ℝ :=
  if ∃ n' : Fin N, mvcClose vertices x n' then 0
  else mvcWjScatter vertices faces x n

/-- `wj = where(close_to_point, 1, wj)`. -/
noncomputable def mvcWjMasked (n : Fin N) : ℝ :=
  if mvcClose vertices x n then 1 else mvcWjZeroed vertices faces x n

/-- `sumWj = sum(wj, dim=-1, keepdim=True)`. -/
noncomputable def mvcSumW : ℝ := ∑ n, mvcWjMasked vertices faces x n

/-- The division guard `sumWj = where(sumWj == 0, 1, sumWj)`. -/
noncomputable def mvcDenom : ℝ :=
  if mvcSumW vertices faces x = 0 then 1 else mvcSumW vertices faces x

/-- `mean_value_coordinates_3D` (geo_operations.py), one (batch, query)
row: the normalised weights `wj / sumWj`. -/
noncomputable def mean_value_coordinates_3D (n : Fin N) : ℝ :=
  mvcWjMasked vertices faces x n / mvcDenom vertices faces x

end MeanValue

/-- Concrete cage for the C2 counterexample and the C8 witness: the single
triangle (0,0,0), (1,0,0), (0,1,0). -/
noncomputable def puV : Fin 3 → Fin 3 → ℝ := ![![0, 0, 0], ![1, 0, 0], ![0, 1, 0]]

/-- Face list of the concrete cage. -/
def puF : Fin 1 → Fin 3 → Fin 3 := fun _ => ![0, 1, 2]

/-- Concrete query for the C2 counterexample: (2, 2, 0) lies in the
triangle's plane, outside the triangle, away from every vertex. -/
noncomputable def puX : Fin 3 → ℝ := ![2, 2, 0]

/-- Concrete query for the C8 witness and counterexample: the origin,
coinciding with vertex 0. -/
noncomputable def vrX : Fin 3 → ℝ := ![0, 0, 0]

/-- Degenerate cage for the C8 counterexample: vertices 0 and 1 coincide at
the origin. -/
noncomputable def dupV : Fin 3 → Fin 3 → ℝ := ![![0, 0, 0], ![0, 0, 0], ![1, 0, 0]]

/-- Face list of the degenerate cage. -/
def dupF : Fin 1 → Fin 3 → Fin 3 := fun _ => ![0, 1, 2]

/-! ## Theorems -/

open scoped Classical

theorem scatterRow_foldl_eq {M N : ℕ} (idx : Fin M → Fin N) (src : Fin M → ℚ)
    (l : List (Fin M)) (init : Fin N → ℚ) (n : Fin N) :
    (l.foldl (fun row m => scatterStep row (idx m) (src m)) init) n
      = init n + (l.map fun m => if idx m = n then src m else 0).sum := by
  induction l generalizing init with
  | nil => simp
  | cons m l ih =>
      rw [List.foldl_cons, ih, List.map_cons, List.sum_cons]
      simp only [scatterStep]
      by_cases h : idx m = n
      · rw [if_pos h.symm, if_pos h]; ring
      · rw [if_neg (fun hc => h hc.symm), if_neg h]; ring

theorem scatterRow_eq_sum {M N : ℕ} (init : Fin N → ℚ) (idx : Fin M → Fin N)
    (src : Fin M → ℚ) (n : Fin N) :
    scatterRow init idx src n = init n + ∑ m, if idx m = n then src m else 0 := by
  rw [scatterRow, scatterRow_foldl_eq, Fin.sum_univ_def]

theorem ScatterAdd_forward_eq_sum {R M N : ℕ} (src : Fin R → Fin M → ℚ)
    (idx : Fin R → Fin M → Fin N) (fill : ℚ) (r : Fin R) (n : Fin N) :
    ScatterAdd_forward src idx fill r n
      = fill + ∑ m, if idx r m = n then src r m else 0 :=
  scatterRow_eq_sum _ _ _ _

/-- C1: gather and scatter-add are an adjoint pair. `GatherFunction.backward`
scatter-adds the incoming gradient back to the `N` positions named by `idx`
(it equals `ScatterAdd.forward` on the gradient with fill 0 and out size
`(C, N)`), accumulating when an index repeats; hence the gradient of
`sum(gather(F, idx))` w.r.t. `F` is `scatter_add` of an all-ones source,
counting the occurrences of each position in `idx`. The gradient w.r.t.
`idx` is `None`. Gather and scatter-add preserve inner products
(adjointness), and `ScatterAdd.backward` is exactly the gather of the
output gradient at `idx` (with `None` for `idx`). -/
theorem C1_gather_scatter_adjoint {B C N M R M' N' : ℕ}
    (features : Fin B → Fin C → Fin N → ℚ) (idx : Fin B → Fin M → Fin N)
    (grad_out : Fin B → Fin C → Fin M → ℚ)
    (ograd : Fin R → Fin N' → ℚ) (idx2 : Fin R → Fin M' → Fin N') :
    (∀ b, (GatherFunction_backward grad_out idx).1 b
        = ScatterAdd_forward (grad_out b) (fun _ m => idx b m) 0)
      ∧ (∀ b c n, (GatherFunction_backward grad_out idx).1 b c n
          = ∑ m, if idx b m = n then grad_out b c m else 0)
      ∧ (∀ b c n, (GatherFunction_backward
            (fun (_ : Fin B) (_ : Fin C) (_ : Fin M) => (1 : ℚ)) idx).1 b c n
          = (Finset.univ.filter fun m => idx b m = n).card)
      ∧ (GatherFunction_backward grad_out idx).2 = none
      ∧ (∀ b, ∑ c, ∑ m, gather_forward features idx b c m * grad_out b c m
          = ∑ c, ∑ n, features b c n
              * ScatterAdd_forward (grad_out b) (fun _ m => idx b m) 0 c n)
      ∧ (∀ r m, (ScatterAdd_backward ograd idx2).1 r m = ograd r (idx2 r m))
      ∧ (ScatterAdd_backward ograd idx2).2 = none := by
  refine ⟨fun b => rfl, fun b c n => ?_, fun b c n => ?_, rfl, fun b => ?_,
    fun r m => rfl, rfl⟩
  · simpa using scatterRow_eq_sum (fun _ => 0) (idx b) (grad_out b c) n
  · show scatterRow (fun _ => 0) (idx b) (fun _ => 1) n = _
    rw [scatterRow_eq_sum]
    simp [Finset.sum_boole]
  · refine Finset.sum_congr rfl fun c _ => ?_
    simp only [ScatterAdd_forward, scatterRow_eq_sum, zero_add, Finset.mul_sum,
      mul_ite, mul_zero]
    rw [Finset.sum_comm]
    simp [gather_forward, Finset.sum_ite_eq]

/-- C10: `scatter_add` called with `out_size=None` sizes the scatter axis as
`idx.max() + 1` (so every index is in range) and keeps `src`'s size on every
other axis; a position not named by any index keeps `fill`, and a named
position holds `fill` plus the sum of the scattered source values. -/
theorem C10_scatter_add_default_out_size {R M : ℕ}
    (src : Fin (R + 1) → Fin (M + 1) → ℚ)
    (idx : Fin (R + 1) → Fin (M + 1) → ℕ) (fill : ℚ) :
    (∀ r m, idx r m < idxMax idx + 1)
      ∧ (∀ r n, scatter_add_defaultSize src idx fill r n
          = fill + ∑ m, if idx r m = n.val then src r m else 0)
      ∧ (∀ r n, (∀ m, idx r m ≠ n.val) →
          scatter_add_defaultSize src idx fill r n = fill) := by
  have key : ∀ r n, scatter_add_defaultSize src idx fill r n
      = fill + ∑ m, if idx r m = n.val then src r m else 0 := by
    intro r n
    rw [scatter_add_defaultSize, ScatterAdd_forward_eq_sum]
    congr 1
    refine Finset.sum_congr rfl fun m _ => ?_
    simp [Fin.ext_iff]
  refine ⟨?_, key, ?_⟩
  · intro r m
    exact Nat.lt_succ_of_le
      (Finset.le_sup (f := fun p : Fin (R + 1) × Fin (M + 1) => idx p.1 p.2)
        (Finset.mem_univ (r, m)))
  · intro r n hmiss
    rw [key r n]
    rw [Finset.sum_eq_zero fun m _ => if_neg (hmiss m), add_zero]

theorem topk_sorted_full {R : Type} [LinearOrder R] {N : ℕ} (val : Fin N → R) :
    List.Sorted (distLE val)
      ((List.finRange N).mergeSort fun i j => decide (distLE val i j)) := by
  have h := @List.sorted_mergeSort (Fin N) (fun i j => decide (distLE val i j))
    (fun a b c hab hbc => decide_eq_true
      (IsTrans.trans a b c (of_decide_eq_true hab) (of_decide_eq_true hbc)))
    (fun a b => by
      rcases IsTotal.total (r := distLE val) a b with h | h
      · simp [decide_eq_true h]
      · simp [decide_eq_true h])
    (List.finRange N)
  exact h.imp fun hab => of_decide_eq_true hab

theorem topk_mem_full {R : Type} [LinearOrder R] {N : ℕ} (val : Fin N → R) (j : Fin N) :
    j ∈ (List.finRange N).mergeSort fun i j => decide (distLE val i j) :=
  (List.mergeSort_perm _ _).mem_iff.mpr (List.mem_finRange j)

theorem topkIdx_sorted {R : Type} [LinearOrder R] {N : ℕ} (val : Fin N → R) (k : ℕ) :
    List.Sorted (distLE val) (topkIdx val k) :=
  List.Pairwise.sublist (List.take_sublist _ _) (topk_sorted_full val)

theorem topkIdx_length {R : Type} [LinearOrder R] {N : ℕ} (val : Fin N → R) (k : ℕ) (hk : k ≤ N) :
    (topkIdx val k).length = k := by
  rw [topkIdx, List.length_take, (List.mergeSort_perm _ _).length_eq,
    List.length_finRange]
  exact min_eq_left hk

theorem topkIdx_connects {R : Type} [LinearOrder R] {N : ℕ} (val : Fin N → R) (k : ℕ) {i j : Fin N}
    (hi : i ∈ topkIdx val k) (hj : j ∉ topkIdx val k) : distLE val i j := by
  set L := (List.finRange N).mergeSort fun i j => decide (distLE val i j) with hL
  have hsplit : L.take k ++ L.drop k = L := List.take_append_drop k L
  have hjL : j ∈ L := topk_mem_full val j
  have hjdrop : j ∈ L.drop k := by
    rcases List.mem_append.mp (hsplit ▸ hjL) with h | h
    · exact absurd h hj
    · exact h
  have hpair : List.Pairwise (distLE val) (L.take k ++ L.drop k) := by
    rw [hsplit]; exact topk_sorted_full val
  exact (List.pairwise_append.mp hpair).2.2 i hi j hjdrop

theorem topkIdx_smallest {R : Type} [LinearOrder R] {N : ℕ} (val : Fin N → R) (k : ℕ) {i j : Fin N}
    (hi : i ∈ topkIdx val k) (hj : j ∉ topkIdx val k) : val i ≤ val j := by
  rcases topkIdx_connects val k hi hj with h | ⟨h, _⟩
  · exact h.le
  · exact h.le

theorem topkIdx_stable {R : Type} [LinearOrder R] {N : ℕ} (val : Fin N → R) (k : ℕ) {i j : Fin N}
    (heq : val i = val j) (hij : i < j) (hj : j ∈ topkIdx val k) :
    i ∈ topkIdx val k := by
  by_contra hi
  rcases topkIdx_connects val k hj hi with h | ⟨_, hle⟩
  · exact absurd h (heq ▸ lt_irrefl _)
  · exact absurd hij (not_lt.mpr hle)

theorem topkIdx_excluded {R : Type} [LinearOrder R] {N : ℕ} (val : Fin N → R) (k : ℕ) (t : Fin N)
    (hcard : k ≤ (Finset.univ.filter fun j =>
      val j < val t ∨ (val j = val t ∧ j < t)).card) :
    t ∉ topkIdx val k := by
  intro ht
  set S := Finset.univ.filter fun j : Fin N =>
    val j < val t ∨ (val j = val t ∧ j < t) with hS
  have hsub : S ⊆ (topkIdx val k).toFinset := by
    intro j hjS
    rcases Finset.mem_filter.mp hjS with ⟨_, hstrict⟩
    by_contra hjnot
    have hjnot' : j ∉ topkIdx val k := fun hmem =>
      hjnot (List.mem_toFinset.mpr hmem)
    have hconn := topkIdx_connects val k ht hjnot'
    rcases hconn with h | ⟨he, hle⟩
    · rcases hstrict with h2 | ⟨e2, _⟩
      · exact absurd (h.trans h2) (lt_irrefl _)
      · exact absurd h (e2 ▸ lt_irrefl _)
    · rcases hstrict with h2 | ⟨_, hlt⟩
      · exact absurd h2 (he ▸ lt_irrefl _)
      · exact absurd (hlt.trans_le hle) (lt_irrefl _)
  have htS : t ∉ S := by
    intro h
    rcases Finset.mem_filter.mp h with ⟨_, h | ⟨_, h⟩⟩
    · exact lt_irrefl _ h
    · exact lt_irrefl _ h
  have hins : insert t S ⊆ (topkIdx val k).toFinset :=
    Finset.insert_subset (List.mem_toFinset.mpr ht) hsub
  have hcard2 : S.card + 1 ≤ (topkIdx val k).toFinset.card := by
    rw [← Finset.card_insert_of_not_mem htS]
    exact Finset.card_le_card hins
  have hlen : (topkIdx val k).toFinset.card ≤ k :=
    le_trans (List.toFinset_card_le _) (List.length_take_le _ _)
  omega

/-- C3: for every query row, `group_knn` (dense-distance-matrix search,
here with `unique=False`) returns the `k` smallest squared Euclidean
distances in ascending order with their indices, matching a brute-force
(distance, index)-sort of the row exactly; the distance matrix is the exact
squared Euclidean distance; selection is the k-smallest set; and ties among
equal distances are broken by original index order (stable selection). -/
theorem C3_group_knn_matches_bruteforce {R : Type} [LinearOrderedCommRing R] {B M N D : ℕ} (k : ℕ)
    (query : Fin (B + 1) → Fin (M + 1) → Fin D → R)
    (points : Fin (B + 1) → Fin (N + 1) → Fin D → R)
    (hk : k ≤ N + 1) :
    ∀ b m,
    ((group_knn k false query points).2.1 b m
        = bruteForceKnn (fun n => batch_distance_matrix_general query points b m n) k)
      ∧ ((group_knn k false query points).2.1 b m).length = k
      ∧ ((group_knn k false query points).2.2 b m
          = ((group_knn k false query points).2.1 b m).map
              fun n => batch_distance_matrix_general query points b m n)
      ∧ ((group_knn k false query points).1 b m
          = ((group_knn k false query points).2.1 b m).map fun n => points b n)
      ∧ (∀ n, batch_distance_matrix_general query points b m n
          = ∑ d, (query b m d - points b n d) ^ 2)
      ∧ List.Sorted (fun x y : R => x ≤ y) ((group_knn k false query points).2.2 b m)
      ∧ (∀ i ∈ (group_knn k false query points).2.1 b m,
          ∀ j : Fin (N + 1), j ∉ (group_knn k false query points).2.1 b m →
            batch_distance_matrix_general query points b m i
              ≤ batch_distance_matrix_general query points b m j)
      ∧ (∀ i j : Fin (N + 1),
          batch_distance_matrix_general query points b m i
              = batch_distance_matrix_general query points b m j →
          i < j → j ∈ (group_knn k false query points).2.1 b m →
          i ∈ (group_knn k false query points).2.1 b m) := by
  intro b m
  have hval : knnD false query points b m
      = fun n => batch_distance_matrix_general query points b m n := rfl
  refine ⟨?_, topkIdx_length _ k hk, rfl, rfl, fun n => ?_, ?_,
    fun i hi j hj => topkIdx_smallest _ k hi hj,
    fun i j heq hij hj => topkIdx_stable _ k heq hij hj⟩
  · show topkIdx (knnD false query points b m) k = _
    rw [hval, topkIdx, bruteForceKnn]
    congr 1
    refine List.eq_of_perm_of_sorted
      (r := distLE fun n => batch_distance_matrix_general query points b m n)
      ((List.mergeSort_perm _ _).trans (List.perm_insertionSort _ _).symm)
      (topk_sorted_full _) (List.sorted_insertionSort _ _)
  · rw [batch_distance_matrix_general]
    rw [Finset.mul_sum, ← Finset.sum_sub_distrib, ← Finset.sum_add_distrib]
    refine Finset.sum_congr rfl fun d _ => ?_
    ring
  · show List.Sorted _ ((topkIdx (knnD false query points b m) k).map _)
    have hs := topkIdx_sorted (knnD false query points b m) k
    refine List.Pairwise.map _ ?_ hs
    intro a c hac
    rcases hac with h | ⟨h, _⟩
    · exact le_of_lt (by rw [hval] at h; exact h)
    · exact le_of_eq (by rw [hval] at h; exact h)

/-- C5 (amended): with `unique=True`, the returned indices contain at most
one representative of each distinct coordinate tuple provided each
duplicate-marked index has at least `k` indices ranked strictly before it in
the penalised distance matrix (by distance, then index). The raw claim —
that the additive `max(D)` penalty always excludes duplicates — fails when
the point set has fewer than `k` distinct tuples, see the counterexample. -/
theorem C5_unique_dedup_amended {R : Type} [LinearOrderedCommRing R] {B M N D : ℕ} (k : ℕ)
    (query : Fin (B + 1) → Fin (M + 1) → Fin D → R)
    (points : Fin (B + 1) → Fin (N + 1) → Fin D → R)
    (hpen : ∀ b m (t : Fin (N + 1)), isDuplicate points b t →
      k ≤ (Finset.univ.filter fun j =>
        knnD true query points b m j < knnD true query points b m t
          ∨ (knnD true query points b m j = knnD true query points b m t
              ∧ j < t)).card) :
    ∀ b m, ∀ i ∈ (group_knn k true query points).2.1 b m,
      ∀ j ∈ (group_knn k true query points).2.1 b m,
      (∀ d, points b i d = points b j d) → i = j := by
  intro b m i hi j hj hrow
  by_contra hne
  rcases lt_or_gt_of_ne hne with hlt | hlt
  · have hdup : isDuplicate points b j := ⟨i, hlt, hrow⟩
    exact topkIdx_excluded (knnD true query points b m) k j (hpen b m j hdup) hj
  · have hdup : isDuplicate points b i := ⟨j, hlt, fun d => (hrow d).symm⟩
    exact topkIdx_excluded (knnD true query points b m) k i (hpen b m i hdup) hi

theorem C3_witness :
    ((group_knn 1 false knnExampleQuery knnExamplePoints).2.1 0 0
        = bruteForceKnn (fun n =>
            batch_distance_matrix_general knnExampleQuery knnExamplePoints 0 0 n) 1)
      ∧ ((group_knn 1 false knnExampleQuery knnExamplePoints).2.1 0 0).length = 1 := by
  have h := C3_group_knn_matches_bruteforce 1 knnExampleQuery knnExamplePoints
    (by decide) 0 0
  exact ⟨h.1, h.2.1⟩

theorem uniqExample_indices :
    (group_knn 1 true uniqExampleQuery uniqExamplePoints).2.1 0 0 = [0] := by
  show topkIdx (knnD true uniqExampleQuery uniqExamplePoints 0 0) 1 = [0]
  rw [topkIdx, List.mergeSort_of_sorted (by decide)]
  decide

theorem C5_witness : (0 : Fin 3) = 0 :=
  C5_unique_dedup_amended 1 uniqExampleQuery uniqExamplePoints (by decide) 0 0
    0 (uniqExample_indices.symm ▸ List.mem_singleton.mpr rfl)
    0 (uniqExample_indices.symm ▸ List.mem_singleton.mpr rfl) (fun _ => rfl)

theorem C5_counterexample :
    (group_knn 2 true dupExampleQuery dupExamplePoints).2.1 0 0 = [0, 1]
      ∧ (∀ d, dupExamplePoints 0 0 d = dupExamplePoints 0 1 d)
      ∧ (0 : Fin 2) ≠ 1 := by
  refine ⟨?_, fun _ => rfl, by decide⟩
  show topkIdx (knnD true dupExampleQuery dupExamplePoints 0 0) 2 = [0, 1]
  rw [topkIdx, List.mergeSort_of_sorted (by decide)]
  decide

/-- C4: without an accelerator, `batch_svd` / `BatchSVDFunction.forward`
fails fast: it returns an error before the SVD kernel is ever invoked and
never falls back to a CPU path. The inert `assert(RuntimeError)` passes (a
class object is truthy), so the raise comes from the `x.cuda()` call. -/
theorem C4_batch_svd_fails_fast_without_cuda {α β : Type} (kernel : α → β)
    (x : α) :
    BatchSVDFunction_forward false kernel x
        = Except.error "CUDA is not available"
      ∧ batch_svd false kernel x = Except.error "CUDA is not available"
      ∧ pythonAssert pythonTruthyRuntimeError "BatchSVDFunction only runs on gpu"
          = Except.ok ()
      ∧ ∀ y : β, BatchSVDFunction_forward false kernel x ≠ Except.ok y :=
  ⟨rfl, rfl, rfl, fun _ h => Except.noConfusion h⟩

theorem npb_reconstruct {B N D : ℕ} (pc : Fin B → Fin (N + 1) → Fin D → ℝ)
    (b : Fin B) (i : Fin (N + 1)) (d : Fin D) :
    npbCentered pc b i d / npbFurthest pc b * npbFurthest pc b
      + npbCentroid pc b d = pc b i d := by
  rcases eq_or_ne (npbFurthest pc b) 0 with h0 | hne
  · have hle : npbDist pc b i ≤ npbFurthest pc b :=
      Finset.le_sup' (npbDist pc b) (Finset.mem_univ i)
    have hz : npbDist pc b i = 0 :=
      le_antisymm (h0 ▸ hle) (Real.sqrt_nonneg _)
    have hsum : (∑ d', npbCentered pc b i d' ^ 2) = 0 :=
      (Real.sqrt_eq_zero (by positivity)).mp hz
    have hsq : npbCentered pc b i d ^ 2 = 0 :=
      (Finset.sum_eq_zero_iff_of_nonneg fun x _ => sq_nonneg _).mp hsum d
        (Finset.mem_univ d)
    have hc : npbCentered pc b i d = 0 := by
      have := sq_eq_zero_iff.mp hsq
      exact this
    have hpc : pc b i d = npbCentroid pc b d := by
      have := hc
      rw [npbCentered] at this
      linarith
    rw [h0, hc, hpc]
    ring
  · rw [div_mul_cancel₀ _ hne, npbCentered]
    ring

/-- C9: `normalize_point_batch` round-trip: for every batch (any batch
size, point count and layout), `pc_normalized * furthest_distance +
centroid` reconstructs the original cloud exactly in real arithmetic (in
floats this holds to about 1e-5; the degenerate all-points-equal cloud is
reconstructed too under the real-division convention). -/
theorem C9_normalize_round_trip {B N D : ℕ}
    (pc : Fin B → Fin (N + 1) → Fin D → ℝ)
    (pcT : Fin B → Fin D → Fin (N + 1) → ℝ) :
    (∀ b i d, (normalize_point_batch pc).1 b i d
          * (normalize_point_batch pc).2.2 b
          + (normalize_point_batch pc).2.1 b d = pc b i d)
      ∧ (∀ b d i, (normalize_point_batch_NCHW pcT).1 b d i
          * (normalize_point_batch_NCHW pcT).2.2 b
          + (normalize_point_batch_NCHW pcT).2.1 b d = pcT b d i) :=
  ⟨fun b i d => npb_reconstruct pc b i d,
   fun b d i => npb_reconstruct (fun b i d => pcT b d i) b i d⟩

/-- C6: the sparse operator assembled by `CotLaplacian.computeLaplacian` is
symmetric with zero row sums — each diagonal entry equals the negative sum
of the off-diagonal entries of its row — so applying the assembled operator
to a constant vertex field yields the zero vector. -/
theorem C6_cot_laplacian_zero_row_sum {B N F : ℕ}
    (V : Fin B → Fin N → Fin 3 → ℝ) (Fc : Fin B → Fin F → Fin 3 → Fin N) :
    (∀ r c, computeLaplacian V Fc r c = computeLaplacian V Fc c r)
      ∧ (∀ r, ∑ c, computeLaplacian V Fc r c = 0)
      ∧ (∀ r, computeLaplacian V Fc r r
          = -∑ c ∈ Finset.univ.erase r, computeLaplacian V Fc r c)
      ∧ (∀ (k : Fin 3 → ℝ) (r : Fin (B * N)) (d : Fin 3),
          cotLx (computeLaplacian V Fc) (fun _ => k) r d = 0) := by
  have hrow : ∀ r, ∑ c, computeLaplacian V Fc r c = 0 := by
    intro r
    unfold computeLaplacian
    rw [Finset.sum_sub_distrib, Finset.sum_ite_eq]
    simp [cotRowSum]
  refine ⟨?_, hrow, ?_, ?_⟩
  · intro r c
    unfold computeLaplacian
    by_cases h : r = c
    · subst h; rfl
    · rw [if_neg h, if_neg fun hc => h hc.symm]
      unfold cotLsym
      rw [add_comm]
  · intro r
    have hsplit : computeLaplacian V Fc r r
          + ∑ c ∈ Finset.univ.erase r, computeLaplacian V Fc r c
        = ∑ c, computeLaplacian V Fc r c :=
      Finset.add_sum_erase _ _ (Finset.mem_univ r)
    have h := hrow r
    linarith [hsplit]
  · intro k r d
    unfold cotLx
    rw [← Finset.sum_mul, hrow r, zero_mul]

/-- C7 (amended): each per-edge value computed by `cotangent(V, F)` is HALF
the cotangent of the triangle's angle opposite that edge as obtained from
Heron's-formula area and the law of cosines — the code divides by
`A = 2 * sqrt(sp...)`, twice Heron's area — so accumulating the two
incident triangles gives half the sum of the two opposite cotangents (the
standard 1/2 factor of the cotangent Laplacian). -/
theorem C7_cotangent_half_amended {B N F : ℕ} (V : Fin B → Fin N → Fin 3 → ℝ)
    (Fc : Fin B → Fin F → Fin 3 → Fin N) :
    ∀ b f e, cotangent V Fc b f e = cotangentClaimed V Fc b f e / 2 := by
  intro b f e
  unfold cotangent cotangentClaimed cotA heronArea
  rw [div_div, div_div]
  congr 1
  ring

theorem cexV_edgeLen_zero : cotEdgeLen cexV cexF 0 0 0 = Real.sqrt 2 := by
  have : (fun d => faceVertex cexV cexF 0 0 1 d - faceVertex cexV cexF 0 0 2 d) 0 ^ 2
      + (fun d => faceVertex cexV cexF 0 0 1 d - faceVertex cexV cexF 0 0 2 d) 1 ^ 2
      + (fun d => faceVertex cexV cexF 0 0 1 d - faceVertex cexV cexF 0 0 2 d) 2 ^ 2
      = 2 := by
    simp [faceVertex, cexV, cexF, Matrix.vecHead, Matrix.vecTail]
    norm_num
  rw [show cotEdgeLen cexV cexF 0 0 0
      = norm3 (fun d => faceVertex cexV cexF 0 0 1 d - faceVertex cexV cexF 0 0 2 d)
    from rfl]
  rw [norm3, Fin.sum_univ_three, this]

theorem cexV_edgeLen_one : cotEdgeLen cexV cexF 0 0 1 = 1 := by
  have : (fun d => faceVertex cexV cexF 0 0 2 d - faceVertex cexV cexF 0 0 0 d) 0 ^ 2
      + (fun d => faceVertex cexV cexF 0 0 2 d - faceVertex cexV cexF 0 0 0 d) 1 ^ 2
      + (fun d => faceVertex cexV cexF 0 0 2 d - faceVertex cexV cexF 0 0 0 d) 2 ^ 2
      = 1 := by
    simp [faceVertex, cexV, cexF, Matrix.vecHead, Matrix.vecTail]
  rw [show cotEdgeLen cexV cexF 0 0 1
      = norm3 (fun d => faceVertex cexV cexF 0 0 2 d - faceVertex cexV cexF 0 0 0 d)
    from rfl]
  rw [norm3, Fin.sum_univ_three, this, Real.sqrt_one]

theorem cexV_edgeLen_two : cotEdgeLen cexV cexF 0 0 2 = 1 := by
  have : (fun d => faceVertex cexV cexF 0 0 0 d - faceVertex cexV cexF 0 0 1 d) 0 ^ 2
      + (fun d => faceVertex cexV cexF 0 0 0 d - faceVertex cexV cexF 0 0 1 d) 1 ^ 2
      + (fun d => faceVertex cexV cexF 0 0 0 d - faceVertex cexV cexF 0 0 1 d) 2 ^ 2
      = 1 := by
    simp [faceVertex, cexV, cexF, Matrix.vecHead, Matrix.vecTail]
  rw [show cotEdgeLen cexV cexF 0 0 2
      = norm3 (fun d => faceVertex cexV cexF 0 0 0 d - faceVertex cexV cexF 0 0 1 d)
    from rfl]
  rw [norm3, Fin.sum_univ_three, this, Real.sqrt_one]

theorem cexV_heron_arg : cotSp cexV cexF 0 0
      * (cotSp cexV cexF 0 0 - cotEdgeLen cexV cexF 0 0 0)
      * (cotSp cexV cexF 0 0 - cotEdgeLen cexV cexF 0 0 1)
      * (cotSp cexV cexF 0 0 - cotEdgeLen cexV cexF 0 0 2) = 1 / 4 := by
  have hs : Real.sqrt 2 ^ 2 = 2 := Real.sq_sqrt (by norm_num)
  rw [cotSp, cexV_edgeLen_zero, cexV_edgeLen_one, cexV_edgeLen_two]
  rw [show (0.5 : ℝ) = 1 / 2 by norm_num]
  linear_combination (-(Real.sqrt 2 ^ 2 - 2) / 16) * hs

theorem cexV_cotA : cotA cexV cexF 0 0 = 1 := by
  rw [cotA, cexV_heron_arg,
    show (1 / 4 : ℝ) = (1 / 2) ^ 2 by norm_num,
    Real.sqrt_sq (by norm_num : (0 : ℝ) ≤ 1 / 2)]
  norm_num

theorem cexV_heron : heronArea cexV cexF 0 0 = 1 / 2 := by
  rw [heronArea, cexV_heron_arg,
    show (1 / 4 : ℝ) = (1 / 2) ^ 2 by norm_num,
    Real.sqrt_sq (by norm_num : (0 : ℝ) ≤ 1 / 2)]

theorem cexV_num : cotNum cexV cexF 0 0 1 = 2 := by
  have hs : Real.sqrt 2 ^ 2 = 2 := Real.sq_sqrt (by norm_num)
  rw [show cotNum cexV cexF 0 0 1
      = cotEdgeLen cexV cexF 0 0 0 ^ 2 + cotEdgeLen cexV cexF 0 0 2 ^ 2
        - cotEdgeLen cexV cexF 0 0 1 ^ 2 from rfl]
  rw [cexV_edgeLen_zero, cexV_edgeLen_one, cexV_edgeLen_two, hs]
  norm_num

/-- C7 counterexample: on the right isoceles triangle (0,0,0), (1,0,0),
(0,1,0), the angle opposite edge 3-1 is 45 degrees, so the claimed value
`(l1^2 + l3^2 - l2^2) / (4 * Area)` is 1, but `cotangent` returns 1/2. -/
theorem C7_counterexample :
    cotangent cexV cexF 0 0 1 = 1 / 2
      ∧ cotangentClaimed cexV cexF 0 0 1 = 1
      ∧ cotangent cexV cexF 0 0 1 ≠ cotangentClaimed cexV cexF 0 0 1 := by
  have h1 : cotangent cexV cexF 0 0 1 = 1 / 2 := by
    rw [cotangent, cexV_num, cexV_cotA]
    norm_num
  have h2 : cotangentClaimed cexV cexF 0 0 1 = 1 := by
    rw [cotangentClaimed, cexV_num, cexV_heron]
    norm_num
  exact ⟨h1, h2, by rw [h1, h2]; norm_num⟩

/-- C2 (amended): every returned row of `mean_value_coordinates_3D` sums to
1 whenever the row's unnormalised total weight is nonzero, and to 0 when
that total vanishes (the guard then divides by 1 instead of 0). A query
coplanar with and outside every face reaches the zero-total case even
though it coincides with no vertex — see the counterexample. -/
theorem C2_partition_of_unity_amended {N F : ℕ} (vertices : Fin N → Fin 3 → ℝ)
    (faces : Fin F → Fin 3 → Fin N) (x : Fin 3 → ℝ) :
    ∑ n, mean_value_coordinates_3D vertices faces x n
      = if mvcSumW vertices faces x = 0 then 0 else 1 := by
  by_cases h : mvcSumW vertices faces x = 0
  · rw [if_pos h]
    unfold mean_value_coordinates_3D
    rw [← Finset.sum_div]
    have hnum : (∑ n, mvcWjMasked vertices faces x n) = 0 := h
    rw [hnum, zero_div]
  · rw [if_neg h]
    unfold mean_value_coordinates_3D mvcDenom
    rw [← Finset.sum_div, if_neg h]
    exact div_self h

theorem mvc_close_row {N F : ℕ} (vertices : Fin N → Fin 3 → ℝ)
    (faces : Fin F → Fin 3 → Fin N) (x : Fin 3 → ℝ) {j : Fin N}
    (hj : mvcClose vertices x j) (n : Fin N) :
    mean_value_coordinates_3D vertices faces x n
      = (if mvcClose vertices x n then 1 else 0)
        / ((Finset.univ.filter fun n' => mvcClose vertices x n').card : ℝ) := by
  have hex : ∃ n', mvcClose vertices x n' := ⟨j, hj⟩
  have hmask : ∀ m, mvcWjMasked vertices faces x m
      = if mvcClose vertices x m then 1 else 0 := by
    intro m
    unfold mvcWjMasked mvcWjZeroed
    by_cases hm : mvcClose vertices x m
    · rw [if_pos hm, if_pos hm]
    · rw [if_neg hm, if_neg hm, if_pos hex]
  have hsum : mvcSumW vertices faces x
      = ((Finset.univ.filter fun n' => mvcClose vertices x n').card : ℝ) := by
    unfold mvcSumW
    rw [Finset.sum_congr rfl fun m _ => hmask m, Finset.sum_boole]
  have hne : mvcSumW vertices faces x ≠ 0 := by
    rw [hsum]
    have hcard : 0 < (Finset.univ.filter fun n' => mvcClose vertices x n').card :=
      Finset.card_pos.mpr ⟨j, Finset.mem_filter.mpr ⟨Finset.mem_univ j, hj⟩⟩
    exact_mod_cast hcard.ne'
  unfold mean_value_coordinates_3D mvcDenom
  rw [if_neg hne, hmask n, hsum]

/-- C8 (amended): if the query coincides with vertex `j` (distance below
1e-8) and with no other vertex, the returned row is 1 at `j` and 0
everywhere else; every face contribution is zeroed before the vertex
weight is set. When several vertices lie within 1e-8 of the query (a
degenerate cage), the weight is split equally among them instead — see the
counterexample. -/
theorem C8_vertex_reproduction_amended {N F : ℕ} (vertices : Fin N → Fin 3 → ℝ)
    (faces : Fin F → Fin 3 → Fin N) (x : Fin 3 → ℝ) (j : Fin N)
    (hj : mvcClose vertices x j)
    (huniq : ∀ n, n ≠ j → ¬ mvcClose vertices x n) :
    ∀ n, mean_value_coordinates_3D vertices faces x n
      = if n = j then 1 else 0 := by
  have hfilter : (Finset.univ.filter fun n' => mvcClose vertices x n') = {j} := by
    ext m
    simp only [Finset.mem_filter, Finset.mem_univ, true_and, Finset.mem_singleton]
    constructor
    · intro hm
      by_contra hne
      exact huniq m hne hm
    · intro h
      exact h ▸ hj
  intro n
  rw [mvc_close_row vertices faces x hj n, hfilter]
  by_cases hn : n = j
  · subst hn
    rw [if_pos hj, if_pos rfl]
    simp
  · rw [if_neg (huniq n hn), if_neg hn, zero_div]

theorem vrX_d0 : mvcD puV vrX 0 = 0 := by
  have h : (∑ d, mvcU puV vrX 0 d ^ 2) = 0 := by
    rw [Fin.sum_univ_three]
    simp [mvcU, puV, vrX, Matrix.vecHead, Matrix.vecTail]
  unfold mvcD norm3
  rw [h, Real.sqrt_zero]

theorem vrX_d1 : mvcD puV vrX 1 = 1 := by
  have h : (∑ d, mvcU puV vrX 1 d ^ 2) = 1 := by
    rw [Fin.sum_univ_three]
    simp [mvcU, puV, vrX, Matrix.vecHead, Matrix.vecTail]
  unfold mvcD norm3
  rw [h, Real.sqrt_one]

theorem vrX_d2 : mvcD puV vrX 2 = 1 := by
  have h : (∑ d, mvcU puV vrX 2 d ^ 2) = 1 := by
    rw [Fin.sum_univ_three]
    simp [mvcU, puV, vrX, Matrix.vecHead, Matrix.vecTail]
  unfold mvcD norm3
  rw [h, Real.sqrt_one]

theorem C8_witness :
    mean_value_coordinates_3D puV puF vrX 0 = 1
      ∧ mean_value_coordinates_3D puV puF vrX 1 = 0 := by
  have h := C8_vertex_reproduction_amended puV puF vrX 0
    (by unfold mvcClose; rw [vrX_d0]; norm_num)
    (by
      intro n hn
      unfold mvcClose
      fin_cases n
      · exact absurd rfl hn
      · show ¬ mvcD puV vrX 1 < 1e-8
        rw [vrX_d1]; norm_num
      · show ¬ mvcD puV vrX 2 < 1e-8
        rw [vrX_d2]; norm_num)
  exact ⟨by rw [h 0, if_pos rfl], by rw [h 1, if_neg (by decide)]⟩

theorem dup_d0 : mvcD dupV vrX 0 = 0 := by
  have h : (∑ d, mvcU dupV vrX 0 d ^ 2) = 0 := by
    rw [Fin.sum_univ_three]
    simp [mvcU, dupV, vrX, Matrix.vecHead, Matrix.vecTail]
  unfold mvcD norm3
  rw [h, Real.sqrt_zero]

theorem dup_d1 : mvcD dupV vrX 1 = 0 := by
  have h : (∑ d, mvcU dupV vrX 1 d ^ 2) = 0 := by
    rw [Fin.sum_univ_three]
    simp [mvcU, dupV, vrX, Matrix.vecHead, Matrix.vecTail]
  unfold mvcD norm3
  rw [h, Real.sqrt_zero]

theorem dup_d2 : mvcD dupV vrX 2 = 1 := by
  have h : (∑ d, mvcU dupV vrX 2 d ^ 2) = 1 := by
    rw [Fin.sum_univ_three]
    simp [mvcU, dupV, vrX, Matrix.vecHead, Matrix.vecTail]
  unfold mvcD norm3
  rw [h, Real.sqrt_one]

/-- C8 counterexample: on a cage whose vertices 0 and 1 both sit at the
origin, a query at the origin coincides with vertex 0 (distance below
1e-8), yet the returned row is (1/2, 1/2, 0) rather than the one-hot row
the claim states. -/
theorem C8_counterexample :
    mvcClose dupV vrX 0
      ∧ mean_value_coordinates_3D dupV dupF vrX 0 = 1 / 2
      ∧ mean_value_coordinates_3D dupV dupF vrX 1 = 1 / 2
      ∧ mean_value_coordinates_3D dupV dupF vrX 0 ≠ 1 := by
  have hc0 : mvcClose dupV vrX 0 := by unfold mvcClose; rw [dup_d0]; norm_num
  have hc1 : mvcClose dupV vrX 1 := by unfold mvcClose; rw [dup_d1]; norm_num
  have hc2 : ¬ mvcClose dupV vrX 2 := by unfold mvcClose; rw [dup_d2]; norm_num
  have hfilter : (Finset.univ.filter fun n' => mvcClose dupV vrX n')
      = ({0, 1} : Finset (Fin 3)) := by
    ext m
    fin_cases m <;> simp [hc0, hc1, hc2]
  have hcard : (({0, 1} : Finset (Fin 3)).card) = 2 := by decide
  have h0 := mvc_close_row dupV dupF vrX hc0 0
  have h1 := mvc_close_row dupV dupF vrX hc0 1
  rw [hfilter, hcard, if_pos hc0] at h0
  rw [hfilter, hcard, if_pos hc1] at h1
  norm_num at h0 h1
  exact ⟨hc0, h0, h1, by rw [h0]; norm_num⟩

theorem arcsin_half_le_pi_div_six {y : ℝ} (hy : y ≤ 1) :
    Real.arcsin (y / 2) ≤ Real.pi / 6 := by
  have hb : Real.arcsin (1 / 2) = Real.pi / 6 := by
    rw [← Real.sin_pi_div_six]
    exact Real.arcsin_sin (by linarith [Real.pi_pos]) (by linarith [Real.pi_pos])
  calc Real.arcsin (y / 2) ≤ Real.arcsin (1 / 2) :=
        Real.monotone_arcsin (by linarith)
    _ = Real.pi / 6 := hb

theorem one_le_sqrt_five : (1 : ℝ) ≤ Real.sqrt 5 := by
  rw [← Real.sqrt_one]
  exact Real.sqrt_le_sqrt (by norm_num)

theorem one_le_sqrt_eight : (1 : ℝ) ≤ Real.sqrt 8 := by
  rw [← Real.sqrt_one]
  exact Real.sqrt_le_sqrt (by norm_num)

theorem puX_norm0 : norm3 (mvcU puV puX 0) = Real.sqrt 8 := by
  have h : (∑ d, mvcU puV puX 0 d ^ 2) = 8 := by
    rw [Fin.sum_univ_three]
    simp [mvcU, puV, puX, Matrix.vecHead, Matrix.vecTail]
    norm_num
  unfold norm3
  rw [h]

theorem puX_norm1 : norm3 (mvcU puV puX 1) = Real.sqrt 5 := by
  have h : (∑ d, mvcU puV puX 1 d ^ 2) = 5 := by
    rw [Fin.sum_univ_three]
    simp [mvcU, puV, puX, Matrix.vecHead, Matrix.vecTail]
    norm_num
  unfold norm3
  rw [h]

theorem puX_norm2 : norm3 (mvcU puV puX 2) = Real.sqrt 5 := by
  have h : (∑ d, mvcU puV puX 2 d ^ 2) = 5 := by
    rw [Fin.sum_univ_three]
    simp [mvcU, puV, puX, Matrix.vecHead, Matrix.vecTail]
    norm_num
  unfold norm3
  rw [h]

theorem puX_no_close : ¬ ∃ n, mvcClose puV puX n := by
  rintro ⟨n, hn⟩
  have hge : (1 : ℝ) ≤ mvcD puV puX n := by
    fin_cases n
    · show (1 : ℝ) ≤ mvcD puV puX 0
      unfold mvcD
      rw [puX_norm0]
      exact one_le_sqrt_eight
    · show (1 : ℝ) ≤ mvcD puV puX 1
      unfold mvcD
      rw [puX_norm1]
      exact one_le_sqrt_five
    · show (1 : ℝ) ≤ mvcD puV puX 2
      unfold mvcD
      rw [puX_norm2]
      exact one_le_sqrt_five
  unfold mvcClose at hn
  have hsmall : (1e-8 : ℝ) < 1 := by norm_num
  linarith

theorem puX_u_z (j : Fin 3) : mvcU puV puX j 2 = 0 := by
  fin_cases j <;> simp [mvcU, puV, puX, Matrix.vecHead, Matrix.vecTail]

theorem puX_unit_z (j : Fin 3) : mvcUnit puV puX j 2 = 0 := by
  unfold mvcUnit torchNormalize3
  rw [puX_u_z, zero_div]

theorem puX_det (f : Fin 1) :
    Matrix.det (Matrix.of fun r c => mvcUi puV puF puX f r c) = 0 := by
  have hz : ∀ r : Fin 3, mvcUi puV puF puX f r 2 = 0 := by
    intro r
    unfold mvcUi
    exact puX_unit_z _
  rw [Matrix.det_fin_three]
  simp only [Matrix.of_apply]
  rw [hz 0, hz 1, hz 2]
  ring

theorem puX_si (f : Fin 1) (k : Fin 3) : mvcSi puV puF puX f k = 0 := by
  unfold mvcSi
  rw [puX_det, Real.sign_zero, zero_mul]

theorem puX_unit0 (d : Fin 3) :
    mvcUnit puV puX 0 d = mvcU puV puX 0 d / Real.sqrt 8 := by
  unfold mvcUnit torchNormalize3
  have hm : (1e-12 : ℝ) ≤ Real.sqrt 8 := by
    have h1 : (1e-12 : ℝ) ≤ 1 := by norm_num
    linarith [one_le_sqrt_eight]
  rw [puX_norm0, max_eq_left hm]

theorem puX_unit1 (d : Fin 3) :
    mvcUnit puV puX 1 d = mvcU puV puX 1 d / Real.sqrt 5 := by
  unfold mvcUnit torchNormalize3
  have hm : (1e-12 : ℝ) ≤ Real.sqrt 5 := by
    have h1 : (1e-12 : ℝ) ≤ 1 := by norm_num
    linarith [one_le_sqrt_five]
  rw [puX_norm1, max_eq_left hm]

theorem puX_unit2 (d : Fin 3) :
    mvcUnit puV puX 2 d = mvcU puV puX 2 d / Real.sqrt 5 := by
  unfold mvcUnit torchNormalize3
  have hm : (1e-12 : ℝ) ≤ Real.sqrt 5 := by
    have h1 : (1e-12 : ℝ) ≤ 1 := by norm_num
    linarith [one_le_sqrt_five]
  rw [puX_norm2, max_eq_left hm]

theorem puX_liRaw_le (k : Fin 3) : mvcLiRaw puV puF puX 0 k ≤ 1 := by
  have hs5 : Real.sqrt 5 ^ 2 = 5 := Real.sq_sqrt (by norm_num)
  have hs8 : Real.sqrt 8 ^ 2 = 8 := Real.sq_sqrt (by norm_num)
  have hp5 : 0 < Real.sqrt 5 := Real.sqrt_pos.mpr (by norm_num)
  have hp8 : 0 < Real.sqrt 8 := Real.sqrt_pos.mpr (by norm_num)
  have ht : (Real.sqrt 5 * Real.sqrt 8) ^ 2 = 40 := by
    rw [mul_pow, hs5, hs8]; norm_num
  have hge : (10 : ℝ) / 3 ≤ Real.sqrt 5 * Real.sqrt 8 := by
    nlinarith [ht, mul_pos hp5 hp8]
  fin_cases k
  · show norm3 (fun d => mvcUnit puV puX 1 d - mvcUnit puV puX 2 d) ≤ 1
    rw [show (1 : ℝ) = Real.sqrt 1 from Real.sqrt_one.symm]
    apply Real.sqrt_le_sqrt
    rw [Fin.sum_univ_three]
    simp only [puX_unit1, puX_unit2]
    simp only [mvcU, puV, puX]
    rw [div_sub_div_same, div_sub_div_same, div_sub_div_same,
      div_pow, div_pow, div_pow, hs5]
    norm_num [Matrix.vecHead, Matrix.vecTail]
  · show norm3 (fun d => mvcUnit puV puX 2 d - mvcUnit puV puX 0 d) ≤ 1
    rw [show (1 : ℝ) = Real.sqrt 1 from Real.sqrt_one.symm]
    apply Real.sqrt_le_sqrt
    rw [Fin.sum_univ_three]
    simp only [puX_unit2, puX_unit0]
    simp only [mvcU, puV, puX]
    norm_num [Matrix.vecHead, Matrix.vecTail]
    rw [div_sub_div _ _ hp5.ne' hp8.ne', div_sub_div _ _ hp5.ne' hp8.ne',
      div_pow, div_pow, div_add_div_same, div_le_one (by positivity)]
    nlinarith [hs5, hs8, hge, ht]
  · show norm3 (fun d => mvcUnit puV puX 0 d - mvcUnit puV puX 1 d) ≤ 1
    rw [show (1 : ℝ) = Real.sqrt 1 from Real.sqrt_one.symm]
    apply Real.sqrt_le_sqrt
    rw [Fin.sum_univ_three]
    simp only [puX_unit0, puX_unit1]
    simp only [mvcU, puV, puX]
    norm_num [Matrix.vecHead, Matrix.vecTail]
    rw [div_sub_div _ _ hp8.ne' hp5.ne', div_sub_div _ _ hp8.ne' hp5.ne',
      div_pow, div_pow, div_add_div_same, div_le_one (by positivity)]
    nlinarith [hs5, hs8, hge, ht]

theorem puX_li_le (k : Fin 3) : mvcLi puV puF puX 0 k ≤ 1 := by
  have hraw := puX_liRaw_le k
  have hnn : 0 ≤ mvcLiRaw puV puF puX 0 k := Real.sqrt_nonneg _
  unfold mvcLi mvcLi1
  rw [if_neg (by linarith : ¬ mvcLiRaw puV puF puX 0 k ≥ 2)]
  rw [if_neg (by linarith : ¬ mvcLiRaw puV puF puX 0 k ≤ -2)]
  exact hraw

theorem puX_theta_le (k : Fin 3) :
    mvcTheta puV puF puX 0 k ≤ Real.pi / 3 := by
  unfold mvcTheta
  have := arcsin_half_le_pi_div_six (puX_li_le k)
  linarith

theorem puX_h_le : mvcH puV puF puX 0 ≤ Real.pi / 2 := by
  unfold mvcH
  rw [Fin.sum_univ_three]
  have h0 := puX_theta_le 0
  have h1 := puX_theta_le 1
  have h2 := puX_theta_le 2
  linarith

theorem puX_inside_false (f : Fin 1) :
    ¬ mvcInsideTriangle puV puF puX f := by
  have hf : f = 0 := Subsingleton.elim f 0
  subst hf
  unfold mvcInsideTriangle codePI
  rw [not_lt]
  have hπ := Real.pi_lt_d2
  have hh := puX_h_le
  have : mvcH puV puF puX 0 ≤ 1.575 := by linarith
  linarith

theorem puX_wi_zero (f : Fin 1) (k : Fin 3) : mvcWi puV puF puX f k = 0 := by
  unfold mvcWi
  rw [if_neg (puX_inside_false f)]
  unfold mvcWiInsideZeroed
  by_cases hex : ∃ f' : Fin 1, mvcInsideTriangle puV puF puX f'
  · rw [if_pos hex]
  · rw [if_neg hex]
    unfold mvcWiSiMasked
    rw [if_pos ⟨0, by rw [puX_si]; norm_num [abs_zero]⟩]

/-- C2 counterexample: the query (2, 2, 0) is at distance at least 1 from
every vertex of the triangle cage (so it coincides with no vertex), lies in
the cage's plane outside its only face (so every face contribution is
masked to zero), and the returned weight row sums to 0, not to 1 within
1e-4. -/
theorem C2_counterexample :
    (¬ ∃ n, mvcClose puV puX n)
      ∧ (∑ n, mean_value_coordinates_3D puV puF puX n) = 0
      ∧ ¬ |(∑ n, mean_value_coordinates_3D puV puF puX n) - 1| ≤ 1e-4 := by
  have hmask : ∀ n, mvcWjMasked puV puF puX n = 0 := by
    intro n
    unfold mvcWjMasked mvcWjZeroed
    rw [if_neg (fun h => puX_no_close ⟨n, h⟩), if_neg puX_no_close]
    unfold mvcWjScatter
    refine Finset.sum_eq_zero fun f _ => Finset.sum_eq_zero fun k _ => ?_
    rw [puX_wi_zero]
    simp
  have hsum : (∑ n, mean_value_coordinates_3D puV puF puX n) = 0 := by
    refine Finset.sum_eq_zero fun n _ => ?_
    unfold mean_value_coordinates_3D
    rw [hmask n, zero_div]
  refine ⟨puX_no_close, hsum, ?_⟩
  rw [hsum]
  norm_num

end PytorchPoints
